import Mathlib

/-!
# tracker_update.cpp : reconciling a frame's classifications into the tracker

A shallow embedding of `filter(HailoROIPtr roi)` from
`hailo_apps/hailo_app_python/core/cpp_postprocess/cpp/tracker_update.cpp`.

* The object graph (`HailoObject`, `HailoROI`) carries, for every object, the
  tag reported by `get_type()` next to its dynamic class, so that
  `get_objects_typed` (selection by tag) and `std::dynamic_pointer_cast`
  (selection by class) are two separate tests, as in the source.
* `HailoTracker::GetInstance()` is not part of the source file.  `filter` is
  written against the three member functions it calls (`TrackerApi`), and the
  association store of the specification (§3, §4.1) is given as one instance
  of them (`association_store`); a second instance (`recording`) keeps the list
  of mutating calls that were issued.
* `operator[]` on a `std::vector` is defined only inside the range; it is
  embedded as `vector_at`, which reports `Fault.out_of_range` otherwise.
-/

namespace TrackerUpdate

/-! ## Object graph -/

/-- Tags reported by `get_type()`.  The three tags named in the source file are
kept; every other tag of the enumeration is `HAILO_OTHER k`. -/
inductive hailo_object_t where
  | HAILO_DETECTION
  | HAILO_UNIQUE_ID
  | HAILO_CLASSIFICATION
  | HAILO_OTHER (k : Nat)
  deriving DecidableEq, Repr

/-- An object of the graph: its dynamic class (the constructor) together with the
tag `type` that its `get_type()` reports.  A Classification carries a label and
a value (spec §3); a UniqueID carries the track identity (a C `int` that is
only compared, never computed with); a Detection carries its own sub-objects;
`other` is any object of another class. -/
inductive HailoObject where
  | classification (type : hailo_object_t) (label : String) (value : String)
  | unique_id (type : hailo_object_t) (id : Int)
  | detection (type : hailo_object_t) (objects : List HailoObject)
  | other (type : hailo_object_t)

/-- The frame handed to `filter`: the objects attached to the region of interest. -/
structure HailoROI where
  objects : List HailoObject

/-- Tag of an object, `obj->get_type()`. -/
def HailoObject.get_type : HailoObject → hailo_object_t
  | .classification t _ _ => t
  | .unique_id t _ => t
  | .detection t _ => t
  | .other t => t

/-- Selection by tag, `get_objects_typed(type)`: the sub-objects whose tag is
`type`, in their stored order. -/
def get_objects_typed (objects : List HailoObject) (type : hailo_object_t) :
    List HailoObject :=
  List.filter (fun o => decide (o.get_type = type)) objects

/-- Downcast `std::dynamic_pointer_cast<HailoDetection>`: on success the
detection's sub-objects are reachable. -/
def dynamic_cast_detection : HailoObject → Option (List HailoObject)
  | .detection _ objects => some objects
  | _ => none

/-- Downcast `std::dynamic_pointer_cast<HailoUniqueID>` followed by `get_id()`. -/
def dynamic_cast_unique_id : HailoObject → Option Int
  | .unique_id _ id => some id
  | _ => none

/-- Downcast `std::dynamic_pointer_cast<HailoClassification>`: label and value. -/
def dynamic_cast_classification : HailoObject → Option (String × String)
  | .classification _ label value => some (label, value)
  | _ => none

/-! ## The tracker interface used by `filter` -/

/-- The three member functions of `HailoTracker::GetInstance()` that the source
calls, over a state `σ` of the process-wide tracker registry. -/
structure TrackerApi (σ : Type) where
  get_trackers_list : σ → List String
  remove_classifications_from_track : σ → String → Int → String → σ
  add_object_to_track : σ → String → Int → HailoObject → σ

/-- Faults of the embedded code. -/
inductive Fault where
  | out_of_range
  deriving DecidableEq, Repr

/-- Element read `v[i]` of a `std::vector`, defined only when `i` is in range. -/
def vector_at {α : Type} (v : List α) (i : Nat) : Except Fault α :=
  match v[i]? with
  | some x => Except.ok x
  | none => Except.error Fault.out_of_range

/-- Lines 44-52: the inner loop over `classifications`.  An element that fails the
downcast to `HailoClassification` is passed over; every other element is added
to the track. -/
def add_classifications {σ : Type} (api : TrackerApi σ) (tracker_name : String)
    (track_id : Int) (st : σ) (classifications : List HailoObject) : σ :=
  List.foldl
    (fun acc classification =>
      match dynamic_cast_classification classification with
      | none => acc
      | some _ => api.add_object_to_track acc tracker_name track_id classification)
    st classifications

/-- Lines 25-53: the body of the loop over `detections`, for one element. -/
def filter_detection {σ : Type} (api : TrackerApi σ) (tracker_name : String)
    (st : σ) (detection : HailoObject) : Except Fault σ :=
  match dynamic_cast_detection detection with
  | none => Except.ok st
  | some sub_objects =>
    let unique_ids := get_objects_typed sub_objects hailo_object_t.HAILO_UNIQUE_ID
    if unique_ids.isEmpty then Except.ok st
    else
      match vector_at unique_ids 0 with
      | Except.error e => Except.error e
      | Except.ok first =>
        match dynamic_cast_unique_id first with
        | none => Except.ok st
        | some track_id =>
          let classifications :=
            get_objects_typed sub_objects hailo_object_t.HAILO_CLASSIFICATION
          if !classifications.isEmpty then
            Except.ok
              (add_classifications api tracker_name track_id
                (api.remove_classifications_from_track st tracker_name track_id
                  "face_recon")
                classifications)
          else Except.ok st

/-- Loop of lines 23-54 over the detections, left to right, stopping at a fault. -/
def filter_loop {σ : Type} (api : TrackerApi σ) (tracker_name : String) :
    σ → List HailoObject → Except Fault σ
  | st, [] => Except.ok st
  | st, detection :: rest =>
    match filter_detection api tracker_name st detection with
    | Except.error e => Except.error e
    | Except.ok st1 => filter_loop api tracker_name st1 rest

/-- The function `filter(HailoROIPtr roi)`, lines 13-55, as a transformer of the
tracker state. -/
def filter {σ : Type} (api : TrackerApi σ) (st : σ) (roi : HailoROI) :
    Except Fault σ :=
  let detections := get_objects_typed roi.objects hailo_object_t.HAILO_DETECTION
  let tracker_names := api.get_trackers_list st
  if tracker_names.isEmpty then Except.ok st
  else
    match vector_at tracker_names 0 with
    | Except.error e => Except.error e
    | Except.ok tracker_name => filter_loop api tracker_name st detections

/-! ## The association store -/

/-- The state of the association store: the known tracker names, and for every
tracker name and track identity the ordered sequence of stored objects (an
absent entry is the empty sequence). -/
structure HailoTracker where
  trackers : List String
  tracks : String → Int → List HailoObject

/-- Whether a stored object is a Classification whose label is `label`. -/
def has_label (label : String) : HailoObject → Bool
  | .classification _ l _ => decide (l = label)
  | _ => false

/-- Replace the sequence stored under one `(tracker, track)` key. -/
def HailoTracker.set_track (s : HailoTracker) (tracker : String) (track : Int)
    (objs : List HailoObject) : HailoTracker :=
  { s with tracks := fun n i => if n = tracker ∧ i = track then objs else s.tracks n i }

/-- Modelled from the spec: `list_tracker_names` of the AssociationStore
(`HailoTracker::get_trackers_list`, absent from the source file) returns all
tracker names currently known, in a stable order, without side effect. -/
def list_tracker_names (s : HailoTracker) : List String :=
  s.trackers

/-- Modelled from the spec: `remove_by_label` of the AssociationStore
(`HailoTracker::remove_classifications_from_track`, absent from the source
file) removes every object stored under `(tracker, track)` whose label equals
`label`; it is a no-op when the tracker or the track is unknown, and it leaves
objects with other labels and non-Classification objects in place. -/
def remove_by_label (s : HailoTracker) (tracker : String) (track : Int)
    (label : String) : HailoTracker :=
  if tracker ∈ s.trackers then
    s.set_track tracker track
      (List.filter (fun o => !has_label label o) (s.tracks tracker track))
  else s

/-- Modelled from the spec: `append` of the AssociationStore
(`HailoTracker::add_object_to_track`, absent from the source file) adds `obj`
to the end of the sequence of `(tracker, track)`, creating the entry if absent,
without deduplication. -/
def append (s : HailoTracker) (tracker : String) (track : Int) (obj : HailoObject) :
    HailoTracker :=
  s.set_track tracker track (s.tracks tracker track ++ [obj])

/-- The association store as the tracker behind `filter`. -/
def association_store : TrackerApi HailoTracker where
  get_trackers_list := list_tracker_names
  remove_classifications_from_track := remove_by_label
  add_object_to_track := append

/-! ## Recording the calls -/

/-- A mutating call received by the tracker. -/
inductive TrackerCall where
  | remove (tracker : String) (track : Int) (label : String)
  | add (tracker : String) (track : Int) (obj : HailoObject)

/-- Tracker name a call is addressed to. -/
def TrackerCall.tracker : TrackerCall → String
  | .remove n _ _ => n
  | .add n _ _ => n

/-- A tracker that behaves as `api` and also keeps, in call order, the mutating
calls it received. -/
def recording {σ : Type} (api : TrackerApi σ) : TrackerApi (σ × List TrackerCall) where
  get_trackers_list := fun p => api.get_trackers_list p.1
  remove_classifications_from_track := fun p n i l =>
    (api.remove_classifications_from_track p.1 n i l, p.2 ++ [TrackerCall.remove n i l])
  add_object_to_track := fun p n i o =>
    (api.add_object_to_track p.1 n i o, p.2 ++ [TrackerCall.add n i o])

/-! ## Derived notions used to state the properties -/

/-- Whether a stored object is a Classification labelled `"face_recon"`, the label
that line 42 passes to the removal. -/
def is_face_recon (o : HailoObject) : Bool := has_label "face_recon" o

/-- Lines 26-36: the track identity that the loop body reads for a detection;
`none` when the body leaves through one of the three `continue` statements. -/
def track_of (detection : HailoObject) : Option Int :=
  match dynamic_cast_detection detection with
  | none => none
  | some sub_objects =>
    match get_objects_typed sub_objects hailo_object_t.HAILO_UNIQUE_ID with
    | [] => none
    | first :: _ => dynamic_cast_unique_id first

/-- Line 38: the classification-typed sub-objects of a detection, in their order
on the detection (none for an object that is not a Detection). -/
def classifications_of (detection : HailoObject) : List HailoObject :=
  match dynamic_cast_detection detection with
  | none => []
  | some sub_objects => get_objects_typed sub_objects hailo_object_t.HAILO_CLASSIFICATION

/-- Lines 47-49: the elements of `classifications` that pass the downcast to
`HailoClassification`. -/
def accepted (classifications : List HailoObject) : List HailoObject :=
  List.filter (fun c => (dynamic_cast_classification c).isSome) classifications

/-- The loop body without the fault channel: the state it leaves. -/
def reconcile {σ : Type} (api : TrackerApi σ) (tracker_name : String) (st : σ)
    (detection : HailoObject) : σ :=
  match track_of detection with
  | none => st
  | some track_id =>
    if (classifications_of detection).isEmpty then st
    else
      add_classifications api tracker_name track_id
        (api.remove_classifications_from_track st tracker_name track_id "face_recon")
        (classifications_of detection)

/-- Whether the loop body reaches lines 42-52 for track `t` on this detection: the
detection resolves to track `t` and has at least one classification-typed
sub-object. -/
def reconciles (t : Int) (d : HailoObject) : Bool :=
  decide (track_of d = some t) && !(classifications_of d).isEmpty

/-- The effect of one detection on the sequence stored for track `t` under the
tracker that `filter` works on. -/
def reconcile_seq (t : Int) (xs : List HailoObject) (d : HailoObject) : List HailoObject :=
  if reconciles t d then
    List.filter (fun o => !is_face_recon o) xs ++ accepted (classifications_of d)
  else xs

/-- The mutating calls the loop body issues for one detection. -/
def calls_of (T : String) (d : HailoObject) : List TrackerCall :=
  match track_of d with
  | none => []
  | some t =>
    if (classifications_of d).isEmpty then []
    else TrackerCall.remove T t "face_recon" ::
      List.map (TrackerCall.add T t) (accepted (classifications_of d))

/-- The mutating calls the loop issues for a list of detections, in order. -/
def frame_calls (T : String) : List HailoObject → List TrackerCall
  | [] => []
  | d :: ds => calls_of T d ++ frame_calls T ds

/-- A detection of the frame that has no UniqueID-typed sub-object, or that has
no classification-typed sub-object. -/
def untracked_or_unclassified : HailoObject → Bool
  | .detection ty objs =>
    decide (ty = hailo_object_t.HAILO_DETECTION) &&
      ((get_objects_typed objs hailo_object_t.HAILO_UNIQUE_ID).isEmpty ||
        (get_objects_typed objs hailo_object_t.HAILO_CLASSIFICATION).isEmpty)
  | _ => false

/-- Classification("face_recon","Alice"). -/
def face_alice : HailoObject :=
  HailoObject.classification hailo_object_t.HAILO_CLASSIFICATION "face_recon" "Alice"

/-- Classification("face_recon","Bob"). -/
def face_bob : HailoObject :=
  HailoObject.classification hailo_object_t.HAILO_CLASSIFICATION "face_recon" "Bob"

/-- Classification("id_badge","123"). -/
def id_badge : HailoObject :=
  HailoObject.classification hailo_object_t.HAILO_CLASSIFICATION "id_badge" "123"

/-- Tracker `"T1"` with track 42 holding Alice's face and the badge (spec §8). -/
def store_t1 : HailoTracker :=
  { trackers := ["T1"],
    tracks := fun n i => if n = "T1" ∧ i = 42 then [face_alice, id_badge] else [] }

/-- A detection of track 42 whose only classification is Bob's face. -/
def detection_bob : HailoObject :=
  HailoObject.detection hailo_object_t.HAILO_DETECTION
    [HailoObject.unique_id hailo_object_t.HAILO_UNIQUE_ID 42, face_bob]

/-- The frame of spec §8: one detection, `detection_bob`. -/
def frame_bob : HailoROI := { objects := [detection_bob] }

/-- Classification("face_recon","Carol"). -/
def face_carol : HailoObject :=
  HailoObject.classification hailo_object_t.HAILO_CLASSIFICATION "face_recon" "Carol"

/-- Tracker `"T1"` registered, nothing stored yet. -/
def store_fresh : HailoTracker :=
  { trackers := ["T1"], tracks := fun _ _ => [] }

/-- No tracker registered; an entry is nevertheless present in the mapping. -/
def store_no_tracker : HailoTracker :=
  { trackers := [], tracks := fun n i => if n = "T1" ∧ i = 42 then [face_alice] else [] }

/-- Two trackers, `"T1"` first, each with one face stored for track 42. -/
def store_two_trackers : HailoTracker :=
  { trackers := ["T1", "T2"],
    tracks := fun n i =>
      if n = "T1" ∧ i = 42 then [face_alice]
      else if n = "T2" ∧ i = 42 then [face_carol] else [] }

/-- A detection of track 7 whose only classification is the badge. -/
def detection_badge_7 : HailoObject :=
  HailoObject.detection hailo_object_t.HAILO_DETECTION
    [HailoObject.unique_id hailo_object_t.HAILO_UNIQUE_ID 7, id_badge]

/-- A frame with a detection of track 7 followed by `detection_bob` (track 42). -/
def frame_bob_and_badge : HailoROI := { objects := [detection_badge_7, detection_bob] }

/-- A detection of track 42 carrying Alice's face and the badge. -/
def detection_alice_badge : HailoObject :=
  HailoObject.detection hailo_object_t.HAILO_DETECTION
    [HailoObject.unique_id hailo_object_t.HAILO_UNIQUE_ID 42, face_alice, id_badge]

/-- A frame with two detections of track 42: Alice's face with the badge, then
Bob's face. -/
def frame_two_detections : HailoROI := { objects := [detection_alice_badge, detection_bob] }

/-- The loop body always returns, with the state given by `reconcile`. -/
theorem filter_detection_eq {σ : Type} (api : TrackerApi σ) (T : String) (st : σ)
    (d : HailoObject) : filter_detection api T st d = Except.ok (reconcile api T st d) := by
  cases d with
  | detection ty objs =>
    simp only [filter_detection, reconcile, track_of, classifications_of, dynamic_cast_detection]
    cases h : get_objects_typed objs hailo_object_t.HAILO_UNIQUE_ID with
    | nil => simp
    | cons u us =>
      simp only [List.isEmpty_cons, Bool.false_eq_true, if_false, vector_at,
        List.getElem?_cons_zero]
      cases hu : dynamic_cast_unique_id u with
      | none => simp
      | some t =>
        simp only
        cases hc : get_objects_typed objs hailo_object_t.HAILO_CLASSIFICATION <;> simp
  | _ => simp [filter_detection, reconcile, track_of, dynamic_cast_detection]

/-- The loop always returns, with the left fold of `reconcile`. -/
theorem filter_loop_eq {σ : Type} (api : TrackerApi σ) (T : String) (ds : List HailoObject)
    (st : σ) : filter_loop api T st ds = Except.ok (List.foldl (reconcile api T) st ds) := by
  induction ds generalizing st with
  | nil => rfl
  | cons d ds ih => simp [filter_loop, filter_detection_eq, ih]

/-- The whole of `filter` always returns: the state itself without tracker, the fold under the first tracker name otherwise. -/
theorem filter_eq {σ : Type} (api : TrackerApi σ) (st : σ) (roi : HailoROI) :
    filter api st roi = Except.ok
      (match api.get_trackers_list st with
       | [] => st
       | T :: _ => List.foldl (reconcile api T) st
            (get_objects_typed roi.objects hailo_object_t.HAILO_DETECTION)) := by
  unfold filter
  cases h : api.get_trackers_list st with
  | nil => simp
  | cons T Ts => simp [vector_at, filter_loop_eq]

/-! ## The association store under the loop body -/

/-- The inner loop leaves the tracker list as it is. -/
theorem add_classifications_trackers (T : String) (t : Int) (cs : List HailoObject)
    (s : HailoTracker) :
    (add_classifications association_store T t s cs).trackers = s.trackers := by
  induction cs generalizing s with
  | nil => rfl
  | cons c cs ih =>
    simp only [add_classifications, List.foldl_cons] at ih ⊢
    cases hc : dynamic_cast_classification c with
    | none => exact ih s
    | some p => simp only [ih]; rfl

/-- The inner loop appends the accepted classifications to the one key it is given. -/
theorem add_classifications_tracks (T : String) (t : Int) (cs : List HailoObject)
    (s : HailoTracker) (n : String) (i : Int) :
    (add_classifications association_store T t s cs).tracks n i =
      if n = T ∧ i = t then s.tracks T t ++ accepted cs else s.tracks n i := by
  induction cs generalizing s with
  | nil => by_cases h : n = T ∧ i = t <;> simp [add_classifications, accepted, h]
  | cons c cs ih =>
    simp only [add_classifications, List.foldl_cons] at ih ⊢
    cases hc : dynamic_cast_classification c with
    | none => simp only [ih, accepted, List.filter_cons, hc]; simp
    | some p =>
      simp only [ih, accepted, List.filter_cons, hc]
      by_cases h : n = T ∧ i = t
      · simp [h, association_store, append, HailoTracker.set_track]
      · simp [h, association_store, append, HailoTracker.set_track]

/-- The loop body leaves the tracker list as it is. -/
theorem reconcile_trackers (T : String) (s : HailoTracker) (d : HailoObject) :
    (reconcile association_store T s d).trackers = s.trackers := by
  unfold reconcile
  cases track_of d with
  | none => rfl
  | some t =>
    simp only
    split
    · rfl
    · rw [add_classifications_trackers]
      simp only [association_store, remove_by_label]
      split <;> rfl

/-- The loop body, key by key: under the tracker at hand every track follows `reconcile_seq`, every other tracker is untouched. -/
theorem reconcile_tracks (T : String) (s : HailoTracker) (d : HailoObject)
    (hT : T ∈ s.trackers) (n : String) (i : Int) :
    (reconcile association_store T s d).tracks n i =
      if n = T then reconcile_seq i (s.tracks T i) d else s.tracks n i := by
  unfold reconcile reconcile_seq reconciles
  cases h : track_of d with
  | none => by_cases hn : n = T <;> simp [hn]
  | some t =>
    simp only
    by_cases hc : classifications_of d = []
    · by_cases hn : n = T <;> simp [hc, hn]
    · simp only [List.isEmpty_iff, hc, if_false, add_classifications_tracks]
      by_cases hn : n = T
      · by_cases hi : i = t
        · subst hn; subst hi
          simp [association_store, remove_by_label, hT, HailoTracker.set_track, is_face_recon, hc]
        · have : ¬ t = i := fun e => hi e.symm
          simp [association_store, remove_by_label, hT, HailoTracker.set_track, hn, hi, this]
      · simp [association_store, remove_by_label, hT, HailoTracker.set_track, hn]

/-- The loop, key by key: a fold of `reconcile_seq` under the tracker at hand, nothing elsewhere. -/
theorem foldl_reconcile_tracks (T : String) (ds : List HailoObject) (s : HailoTracker)
    (hT : T ∈ s.trackers) (n : String) (i : Int) :
    (List.foldl (reconcile association_store T) s ds).tracks n i =
      if n = T then List.foldl (reconcile_seq i) (s.tracks T i) ds else s.tracks n i := by
  induction ds generalizing s with
  | nil => by_cases hn : n = T <;> simp [hn]
  | cons d ds ih =>
    have hT1 : T ∈ (reconcile association_store T s d).trackers := by
      rw [reconcile_trackers]; exact hT
    simp only [List.foldl_cons, ih _ hT1, reconcile_tracks T s d hT]
    by_cases hn : n = T <;> simp [hn]

/-! ## One stored sequence along the frame -/

/-- Dropping the `"face_recon"` entries twice is dropping them once. -/
theorem not_face_recon_filter_idem (xs : List HailoObject) :
    List.filter (fun o => !is_face_recon o) (List.filter (fun o => !is_face_recon o) xs) =
      List.filter (fun o => !is_face_recon o) xs := by
  simp [List.filter_filter]

/-- Nothing labelled `"face_recon"` is left once those entries are dropped. -/
theorem face_recon_of_not_face_recon (xs : List HailoObject) :
    List.filter is_face_recon (List.filter (fun o => !is_face_recon o) xs) = [] := by
  simp [List.filter_filter]

/-- A sequence of `"face_recon"` entries only has no other entry. -/
theorem not_face_recon_of_all (xs : List HailoObject) (h : ∀ o ∈ xs, is_face_recon o = true) :
    List.filter (fun o => !is_face_recon o) xs = [] := by
  rw [List.filter_eq_nil_iff]
  intro o ho
  simp [h o ho]

/-- Step of a detection that reaches the removal for the track. -/
theorem reconcile_seq_of_reconciles {t : Int} {d : HailoObject} (xs : List HailoObject)
    (h : reconciles t d = true) :
    reconcile_seq t xs d =
      List.filter (fun o => !is_face_recon o) xs ++ accepted (classifications_of d) := by
  simp [reconcile_seq, h]

/-- Step of a detection that does not reach the removal for the track. -/
theorem reconcile_seq_of_not_reconciles {t : Int} {d : HailoObject} (xs : List HailoObject)
    (h : reconciles t d = false) : reconcile_seq t xs d = xs := by
  simp [reconcile_seq, h]

/-- Only the detections that reach the removal for the track matter to its sequence. -/
theorem foldl_reconcile_seq_filter (t : Int) (ds : List HailoObject) (xs : List HailoObject) :
    List.foldl (reconcile_seq t) xs ds =
      List.foldl (reconcile_seq t) xs (List.filter (reconciles t) ds) := by
  induction ds generalizing xs with
  | nil => rfl
  | cons d ds ih =>
    cases h : reconciles t d with
    | true => simp only [List.foldl_cons, List.filter_cons, h, if_true]; exact ih _
    | false =>
      simp only [List.foldl_cons, List.filter_cons, h, reconcile_seq_of_not_reconciles xs h]
      exact ih _

/-- One step keeps the other entries as an initial segment. -/
theorem other_entries_initial_step (t : Int) (xs : List HailoObject) (d : HailoObject) :
    List.filter (fun o => !is_face_recon o) xs <+:
      List.filter (fun o => !is_face_recon o) (reconcile_seq t xs d) := by
  cases h : reconciles t d with
  | true =>
    rw [reconcile_seq_of_reconciles xs h, List.filter_append, not_face_recon_filter_idem]
    exact ⟨_, rfl⟩
  | false => rw [reconcile_seq_of_not_reconciles xs h]

/-- The whole fold keeps the other entries as an initial segment. -/
theorem other_entries_initial_foldl (t : Int) (ds : List HailoObject) (xs : List HailoObject) :
    List.filter (fun o => !is_face_recon o) xs <+:
      List.filter (fun o => !is_face_recon o) (List.foldl (reconcile_seq t) xs ds) := by
  induction ds generalizing xs with
  | nil => exact ⟨[], by simp⟩
  | cons d ds ih =>
    exact List.IsPrefix.trans (other_entries_initial_step t xs d) (ih _)

/-- Face-recognition entries after the fold are those of the last reconciling detection. -/
theorem face_recon_foldl_last (t : Int) (ds : List HailoObject) (xs : List HailoObject)
    (l : HailoObject) (hl : (List.filter (reconciles t) ds).getLast? = some l) :
    List.filter is_face_recon (List.foldl (reconcile_seq t) xs ds) =
      List.filter is_face_recon (accepted (classifications_of l)) := by
  induction ds generalizing xs with
  | nil => simp at hl
  | cons d ds ih =>
    rw [List.foldl_cons]
    cases hr : reconciles t d with
    | false =>
      simp only [List.filter_cons, hr] at hl
      exact ih _ hl
    | true =>
      simp only [List.filter_cons, hr, if_true, List.getLast?_cons] at hl
      cases hl2 : (List.filter (reconciles t) ds).getLast? with
      | some l2 =>
        rw [hl2] at hl
        simp only [Option.getD_some, Option.some.injEq] at hl
        subst hl
        exact ih _ hl2
      | none =>
        rw [hl2] at hl
        simp only [Option.getD_none, Option.some.injEq] at hl
        subst hl
        have hnil : List.filter (reconciles t) ds = [] := by
          cases hf : List.filter (reconciles t) ds with
          | nil => rfl
          | cons a as => rw [hf] at hl2; simp [List.getLast?_cons] at hl2
        rw [foldl_reconcile_seq_filter, hnil, List.foldl_nil, reconcile_seq_of_reconciles xs hr,
          List.filter_append, face_recon_of_not_face_recon, List.nil_append]

/-- Other-labelled classifications written for a reconciling detection stay stored. -/
theorem other_label_sublist_foldl (t : Int) (ds : List HailoObject) (xs : List HailoObject)
    (d : HailoObject) (hd : d ∈ ds) (hr : reconciles t d = true) :
    List.Sublist
      (List.filter (fun o => !is_face_recon o) (accepted (classifications_of d)))
      (List.foldl (reconcile_seq t) xs ds) := by
  induction ds generalizing xs with
  | nil => simp at hd
  | cons e ds ih =>
    rw [List.foldl_cons]
    rcases List.mem_cons.mp hd with he | hmem
    · subst he
      have h1 : List.Sublist
          (List.filter (fun o => !is_face_recon o) (accepted (classifications_of d)))
          (List.filter (fun o => !is_face_recon o) (reconcile_seq t xs d)) := by
        rw [reconcile_seq_of_reconciles xs hr, List.filter_append]
        exact List.sublist_append_right _ _
      exact h1.trans ((other_entries_initial_foldl t ds _).sublist.trans (List.filter_sublist _))
    · exact ih _ hmem

/-! ## The recording tracker -/

/-- The inner loop on the recording tracker: same state, one recorded addition per accepted classification. -/
theorem add_classifications_recording {σ : Type} (api : TrackerApi σ) (T : String) (t : Int)
    (cs : List HailoObject) (s : σ) (l : List TrackerCall) :
    add_classifications (recording api) T t (s, l) cs =
      (add_classifications api T t s cs,
        l ++ List.map (TrackerCall.add T t) (accepted cs)) := by
  induction cs generalizing s l with
  | nil => simp [add_classifications, accepted]
  | cons c cs ih =>
    simp only [add_classifications, List.foldl_cons] at ih ⊢
    cases hc : dynamic_cast_classification c with
    | none => simp only [ih, accepted, List.filter_cons, hc]; simp
    | some p =>
      simp only [hc, accepted, List.filter_cons, Option.isSome_some, if_true]
      have hstep : (recording api).add_object_to_track (s, l) T t c =
          (api.add_object_to_track s T t c, l ++ [TrackerCall.add T t c]) := rfl
      rw [hstep, ih]
      simp [accepted]

/-- The loop body on the recording tracker: same state, the calls of `calls_of` recorded. -/
theorem reconcile_recording {σ : Type} (api : TrackerApi σ) (T : String) (s : σ)
    (l : List TrackerCall) (d : HailoObject) :
    reconcile (recording api) T (s, l) d = (reconcile api T s d, l ++ calls_of T d) := by
  unfold reconcile calls_of
  cases track_of d with
  | none => simp
  | some t =>
    simp only
    cases hc : (classifications_of d).isEmpty with
    | true => simp
    | false =>
      simp only [Bool.false_eq_true, if_false]
      have hstep : (recording api).remove_classifications_from_track (s, l) T t "face_recon" =
          (api.remove_classifications_from_track s T t "face_recon",
            l ++ [TrackerCall.remove T t "face_recon"]) := rfl
      rw [hstep, add_classifications_recording]
      simp

/-- The loop on the recording tracker: same state, the calls of `frame_calls` recorded. -/
theorem foldl_reconcile_recording {σ : Type} (api : TrackerApi σ) (T : String)
    (ds : List HailoObject) (s : σ) (l : List TrackerCall) :
    List.foldl (reconcile (recording api) T) (s, l) ds =
      (List.foldl (reconcile api T) s ds, l ++ frame_calls T ds) := by
  induction ds generalizing s l with
  | nil => simp [frame_calls]
  | cons d ds ih => simp [reconcile_recording, ih, frame_calls]

/-- Every call issued for a detection is addressed to the tracker at hand. -/
theorem calls_of_tracker (T : String) (d : HailoObject) :
    ∀ c ∈ calls_of T d, c.tracker = T := by
  intro c hc
  unfold calls_of at hc
  cases h : track_of d with
  | none => simp [h] at hc
  | some t =>
    simp only [h] at hc
    split at hc
    · simp at hc
    · rcases List.mem_cons.mp hc with h1 | h1
      · subst h1; rfl
      · obtain ⟨o, _, ho⟩ := List.mem_map.mp h1
        subst ho; rfl

/-- Every call issued for a frame is addressed to the tracker at hand. -/
theorem frame_calls_tracker (T : String) (ds : List HailoObject) :
    ∀ c ∈ frame_calls T ds, c.tracker = T := by
  induction ds with
  | nil => intro c hc; simp [frame_calls] at hc
  | cons d ds ih =>
    intro c hc
    simp only [frame_calls, List.mem_append] at hc
    rcases hc with h | h
    · exact calls_of_tracker T d c h
    · exact ih c h

/-! ## Skipped detections -/

/-- An untracked or unclassified detection leaves any tracker state as it is. -/
theorem reconcile_of_skipped {σ : Type} (api : TrackerApi σ) (T : String) (st : σ)
    (d : HailoObject) (h : untracked_or_unclassified d = true) : reconcile api T st d = st := by
  cases d with
  | detection ty objs =>
    simp only [untracked_or_unclassified, Bool.and_eq_true, Bool.or_eq_true,
      decide_eq_true_eq] at h
    unfold reconcile track_of classifications_of
    simp only [dynamic_cast_detection]
    rcases h.2 with hu | hc
    · rw [List.isEmpty_iff] at hu
      simp [hu]
    · cases get_objects_typed objs hailo_object_t.HAILO_UNIQUE_ID with
      | nil => rfl
      | cons u us =>
        simp only
        cases dynamic_cast_unique_id u with
        | none => rfl
        | some t => simp [hc]
  | _ => simp [untracked_or_unclassified] at h

/-- Deleting the untracked or unclassified detections does not change the fold. -/
theorem foldl_reconcile_drop_skipped {σ : Type} (api : TrackerApi σ) (T : String)
    (ds : List HailoObject) (st : σ) :
    List.foldl (reconcile api T) st
        (List.filter (fun d => !untracked_or_unclassified d) ds) =
      List.foldl (reconcile api T) st ds := by
  induction ds generalizing st with
  | nil => rfl
  | cons d ds ih =>
    cases h : untracked_or_unclassified d with
    | true => simp [List.filter_cons, h, reconcile_of_skipped api T st d h, ih]
    | false => simp [List.filter_cons, h, ih]

/-- A fold over untracked or unclassified detections only is the identity. -/
theorem foldl_reconcile_only_skipped {σ : Type} (api : TrackerApi σ) (T : String)
    (ds : List HailoObject) (st : σ) :
    List.foldl (reconcile api T) st (List.filter untracked_or_unclassified ds) = st := by
  induction ds generalizing st with
  | nil => rfl
  | cons d ds ih =>
    cases h : untracked_or_unclassified d with
    | true => simp [List.filter_cons, h, reconcile_of_skipped api T st d h, ih]
    | false => simp [List.filter_cons, h, ih]

/-- Selection by tag commutes with any other selection. -/
theorem get_objects_typed_filter (p : HailoObject → Bool) (objs : List HailoObject)
    (ty : hailo_object_t) :
    get_objects_typed (List.filter p objs) ty = List.filter p (get_objects_typed objs ty) := by
  simp only [get_objects_typed, List.filter_filter]
  congr 1
  funext o
  exact Bool.and_comm _ _

/-! ## `filter` on the association store -/

/-- The result of `filter` on the association store. -/
theorem filter_store_eq (s : HailoTracker) (roi : HailoROI) :
    filter association_store s roi = Except.ok
      (match s.trackers with
       | [] => s
       | T :: _ => List.foldl (reconcile association_store T) s
            (get_objects_typed roi.objects hailo_object_t.HAILO_DETECTION)) :=
  filter_eq association_store s roi

/-- The result of `filter` on the recording association store. -/
theorem filter_recording_eq (s : HailoTracker) (l : List TrackerCall) (roi : HailoROI) :
    filter (recording association_store) (s, l) roi = Except.ok
      (match s.trackers with
       | [] => (s, l)
       | T :: _ =>
          (List.foldl (reconcile association_store T) s
            (get_objects_typed roi.objects hailo_object_t.HAILO_DETECTION),
           l ++ frame_calls T
            (get_objects_typed roi.objects hailo_object_t.HAILO_DETECTION))) := by
  rw [filter_eq]
  show Except.ok (match s.trackers with
       | [] => (s, l)
       | T :: _ => List.foldl (reconcile (recording association_store) T) (s, l)
            (get_objects_typed roi.objects hailo_object_t.HAILO_DETECTION)) = _
  cases s.trackers with
  | nil => rfl
  | cons T Ts => simp only [foldl_reconcile_recording]

/-- Nothing is passed over when every element is a Classification. -/
theorem accepted_of_all_cast (C : List HailoObject)
    (h : ∀ c ∈ C, (dynamic_cast_classification c).isSome = true) : accepted C = C := by
  unfold accepted
  rw [List.filter_eq_self]
  exact h

/-- An object labelled `"face_recon"` is a Classification. -/
theorem cast_of_face_recon (c : HailoObject) (h : is_face_recon c = true) :
    (dynamic_cast_classification c).isSome = true := by
  cases c <;> simp [is_face_recon, has_label, dynamic_cast_classification] at h ⊢

/-- The detections reaching the removal for a track are those of the track that have a classification-typed sub-object. -/
theorem filter_reconciles_of_track (t : Int) (ds : List HailoObject) :
    List.filter (reconciles t) ds =
      List.filter (fun d => !(classifications_of d).isEmpty)
        (List.filter (fun d => decide (track_of d = some t)) ds) := by
  simp only [List.filter_filter]
  congr 1
  funext d
  simp only [reconciles]
  exact Bool.and_comm _ _

/-- The `"face_recon"` entries among the accepted classifications are those among all of them. -/
theorem face_recon_accepted (cs : List HailoObject) :
    List.filter is_face_recon (accepted cs) = List.filter is_face_recon cs := by
  unfold accepted
  rw [List.filter_filter]
  congr 1
  funext c
  cases c <;> simp [is_face_recon, has_label, dynamic_cast_classification]

/-! ## Properties of `filter` -/

/-- C1: remove-then-append for one detection.  The store has a first tracker
name `T` and holds `L` under `(T, t)`; the only detection of the frame resolves
to track `t` and carries a non-empty list `C` of classification-typed
sub-objects, all of them Classifications.  Then `filter` returns, the calls it
made are one removal of `"face_recon"` followed by one addition per element of
`C` in order, and the sequence stored for `(T, t)` is `L` without its
Classifications labelled `"face_recon"` (the rest in their order), followed by
`C`. -/
theorem filter_single_detection_remove_then_append
    (s : HailoTracker) (T : String) (rest : List String) (t : Int) (roi : HailoROI)
    (d : HailoObject) (L C : List HailoObject)
    (hT : s.trackers = T :: rest)
    (hL : s.tracks T t = L)
    (hd : get_objects_typed roi.objects hailo_object_t.HAILO_DETECTION = [d])
    (ht : track_of d = some t)
    (hC : classifications_of d = C)
    (hne : C ≠ [])
    (hcast : ∀ c ∈ C, (dynamic_cast_classification c).isSome = true) :
    ∃ s', filter association_store s roi = Except.ok s' ∧
      filter (recording association_store) (s, []) roi =
        Except.ok (s', TrackerCall.remove T t "face_recon" ::
          List.map (TrackerCall.add T t) C) ∧
      s'.tracks T t = List.filter (fun o => !is_face_recon o) L ++ C := by
  have hmem : T ∈ s.trackers := by rw [hT]; exact List.mem_cons_self _ _
  have hemp : (classifications_of d).isEmpty = false := by
    rw [hC]
    cases C with
    | nil => exact absurd rfl hne
    | cons c cs => rfl
  refine ⟨_, filter_store_eq s roi, ?_, ?_⟩
  · have hempC : C.isEmpty = false := by rw [← hC]; exact hemp
    rw [filter_recording_eq]
    simp only [hT, hd, frame_calls, calls_of, ht, hC, hempC, Bool.false_eq_true, if_false,
      accepted_of_all_cast C hcast, List.nil_append, List.append_nil]
  · simp only [hT, hd]
    rw [foldl_reconcile_tracks T [d] s hmem T t, if_pos rfl, List.foldl_cons, List.foldl_nil]
    have hr : reconciles t d = true := by simp [reconciles, ht, hemp]
    rw [reconcile_seq_of_reconciles _ hr, hL, hC, accepted_of_all_cast C hcast]

/-- The scenario of spec §8 through C1: tracker `"T1"`, track 42 holding Alice's
face and the badge, a frame whose detection carries Bob's face. -/
theorem filter_single_detection_remove_then_append_witness :
    ∃ s', filter association_store store_t1 frame_bob = Except.ok s' ∧
      filter (recording association_store) (store_t1, []) frame_bob =
        Except.ok (s', [TrackerCall.remove "T1" 42 "face_recon",
          TrackerCall.add "T1" 42 face_bob]) ∧
      s'.tracks "T1" 42 = [id_badge, face_bob] := by
  obtain ⟨s', h1, h2, h3⟩ :=
    filter_single_detection_remove_then_append store_t1 "T1" [] 42 frame_bob detection_bob
      [face_alice, id_badge] [face_bob] rfl rfl rfl rfl rfl (by simp)
      (by simp [face_bob, dynamic_cast_classification])
  exact ⟨s', h1, h2, by rw [h3]; rfl⟩

/-- C2: replacement, not union.  The store has a first tracker name `T` and holds
under `(T, t)` only Classifications labelled `"face_recon"` (possibly none);
exactly one detection of the frame resolves to track `t`, and its
classification-typed sub-objects form a non-empty list of Classifications all
labelled `"face_recon"`; the other detections are arbitrary.  Then `filter`
returns and the sequence stored for `(T, t)` is exactly that list, in detection
order. -/
theorem filter_replaces_face_recon
    (s : HailoTracker) (T : String) (rest : List String) (t : Int) (roi : HailoROI)
    (d : HailoObject)
    (hT : s.trackers = T :: rest)
    (hS : ∀ o ∈ s.tracks T t, is_face_recon o = true)
    (hone : List.filter (fun o => decide (track_of o = some t))
        (get_objects_typed roi.objects hailo_object_t.HAILO_DETECTION) = [d])
    (hne : (classifications_of d).isEmpty = false)
    (hS' : ∀ c ∈ classifications_of d, is_face_recon c = true) :
    ∃ s', filter association_store s roi = Except.ok s' ∧
      s'.tracks T t = classifications_of d := by
  refine ⟨_, filter_store_eq s roi, ?_⟩
  have hmem : T ∈ s.trackers := by rw [hT]; exact List.mem_cons_self _ _
  simp only [hT]
  rw [foldl_reconcile_tracks T _ s hmem T t, if_pos rfl, foldl_reconcile_seq_filter,
    filter_reconciles_of_track, hone]
  have hd : track_of d = some t := by
    have : d ∈ List.filter (fun o => decide (track_of o = some t))
        (get_objects_typed roi.objects hailo_object_t.HAILO_DETECTION) := by
      rw [hone]; exact List.mem_singleton_self d
    simpa using (List.mem_filter.mp this).2
  have hr : reconciles t d = true := by simp [reconciles, hd, hne]
  simp only [List.filter_cons, hne, Bool.not_false, if_true, List.filter_nil, List.foldl_cons,
    List.foldl_nil]
  rw [reconcile_seq_of_reconciles _ hr, not_face_recon_of_all _ hS, List.nil_append,
    accepted_of_all_cast _ (fun c hc => cast_of_face_recon c (hS' c hc))]

/-- C2 at a concrete input: two trackers, Alice's face stored for track 42, and
a frame with a detection of track 7 followed by the detection carrying Bob's face. -/
theorem filter_replaces_face_recon_witness :
    ∃ s', filter association_store store_two_trackers frame_bob_and_badge = Except.ok s' ∧
      s'.tracks "T1" 42 = [face_bob] := by
  obtain ⟨s', h1, h2⟩ :=
    filter_replaces_face_recon store_two_trackers "T1" ["T2"] 42 frame_bob_and_badge
      detection_bob rfl
      (by intro o ho
          have : o = face_alice := by simpa [store_two_trackers] using ho
          subst this; rfl)
      rfl rfl
      (by intro c hc
          have : c = face_bob := by
            simpa [classifications_of, detection_bob, dynamic_cast_detection, get_objects_typed,
              HailoObject.get_type, face_bob] using hc
          subst this; rfl)
  exact ⟨s', h1, by rw [h2]; rfl⟩

/-- C4: already-stored entries of other kinds are preserved.  For every store,
frame and `(tracker, track)` key, `filter` returns, and the entries stored
before that are not Classifications labelled `"face_recon"` form a prefix of
the entries of that kind stored after. -/
theorem filter_keeps_other_entries (s : HailoTracker) (roi : HailoROI) (n : String) (i : Int) :
    ∃ s', filter association_store s roi = Except.ok s' ∧
      List.filter (fun o => !is_face_recon o) (s.tracks n i) <+:
        List.filter (fun o => !is_face_recon o) (s'.tracks n i) := by
  refine ⟨_, filter_store_eq s roi, ?_⟩
  cases hT : s.trackers with
  | nil => exact ⟨[], by simp⟩
  | cons T Ts =>
    have hmem : T ∈ s.trackers := by rw [hT]; exact List.mem_cons_self _ _
    simp only
    rw [foldl_reconcile_tracks T _ s hmem n i]
    by_cases hn : n = T
    · simp only [hn, if_true]
      exact other_entries_initial_foldl i _ _
    · simp only [hn, if_false]
      exact ⟨[], by simp⟩

/-- C5: no tracker, no work.  When the list of tracker names is empty, `filter`
returns the store unchanged, and on the recording tracker the list of calls
stays empty: neither a removal nor an addition is made. -/
theorem filter_without_tracker_is_noop (s : HailoTracker) (roi : HailoROI)
    (h : s.trackers = []) :
    filter association_store s roi = Except.ok s ∧
      filter (recording association_store) (s, []) roi = Except.ok (s, []) := by
  constructor
  · rw [filter_store_eq]; simp only [h]
  · rw [filter_recording_eq]; simp only [h]

/-- C5 at a store without tracker and the frame carrying Bob's face. -/
theorem filter_without_tracker_is_noop_witness :
    filter association_store store_no_tracker frame_bob = Except.ok store_no_tracker ∧
      filter (recording association_store) (store_no_tracker, []) frame_bob =
        Except.ok (store_no_tracker, []) :=
  filter_without_tracker_is_noop store_no_tracker frame_bob rfl

/-- C6: untracked or unclassified detections are skipped.  For every store and
frame, `filter` gives the same result (store, and calls made) as on the frame
with every detection deleted that has no UniqueID-typed sub-object or no
classification-typed sub-object; and on a frame made only of such detections
it returns the store unchanged, without any call. -/
theorem filter_skips_untracked_or_unclassified (s : HailoTracker) (l : List TrackerCall)
    (roi : HailoROI) :
    filter association_store s roi =
        filter association_store s
          { objects := List.filter (fun d => !untracked_or_unclassified d) roi.objects } ∧
      filter (recording association_store) (s, l) roi =
        filter (recording association_store) (s, l)
          { objects := List.filter (fun d => !untracked_or_unclassified d) roi.objects } ∧
      filter association_store s
          { objects := List.filter untracked_or_unclassified roi.objects } = Except.ok s ∧
      filter (recording association_store) (s, l)
          { objects := List.filter untracked_or_unclassified roi.objects } =
        Except.ok (s, l) := by
  simp only [filter_eq, get_objects_typed_filter, foldl_reconcile_drop_skipped,
    foldl_reconcile_only_skipped, true_and]
  constructor
  · cases association_store.get_trackers_list s <;> rfl
  · cases (recording association_store).get_trackers_list (s, l) <;> rfl

/-- C7: only the first tracker is touched.  When the tracker list read at the
start is `T :: rest`, `filter` returns, every call it made is addressed to `T`,
and the entries under every other tracker name are as before. -/
theorem filter_touches_first_tracker_only (s : HailoTracker) (T : String)
    (rest : List String) (roi : HailoROI) (h : s.trackers = T :: rest) :
    ∃ s' calls, filter (recording association_store) (s, []) roi = Except.ok (s', calls) ∧
      filter association_store s roi = Except.ok s' ∧
      (∀ c ∈ calls, c.tracker = T) ∧
      ∀ n, n ≠ T → ∀ i, s'.tracks n i = s.tracks n i := by
  have hmem : T ∈ s.trackers := by rw [h]; exact List.mem_cons_self _ _
  refine ⟨List.foldl (reconcile association_store T) s
      (get_objects_typed roi.objects hailo_object_t.HAILO_DETECTION),
    frame_calls T (get_objects_typed roi.objects hailo_object_t.HAILO_DETECTION),
    ?_, ?_, ?_, ?_⟩
  · rw [filter_recording_eq]; simp only [h, List.nil_append]
  · rw [filter_store_eq]; simp only [h]
  · exact frame_calls_tracker T _
  · intro n hn i
    rw [foldl_reconcile_tracks T _ s hmem n i, if_neg hn]

/-- C7 at a store with trackers `"T1"` and `"T2"`. -/
theorem filter_touches_first_tracker_only_witness :
    ∃ s' calls, filter (recording association_store) (store_two_trackers, []) frame_bob =
        Except.ok (s', calls) ∧
      filter association_store store_two_trackers frame_bob = Except.ok s' ∧
      (∀ c ∈ calls, c.tracker = "T1") ∧
      ∀ n, n ≠ "T1" → ∀ i, s'.tracks n i = store_two_trackers.tracks n i :=
  filter_touches_first_tracker_only store_two_trackers "T1" ["T2"] frame_bob rfl

/-- C8: `filter` never fails.  Over any tracker, for every state and frame,
`filter` returns a state, and so does the loop body on every object: the two
element-0 reads (`tracker_names[0]`, `unique_ids[0]`) are never out of range. -/
theorem filter_never_faults {σ : Type} (api : TrackerApi σ) (st : σ) (roi : HailoROI) :
    (∃ st', filter api st roi = Except.ok st') ∧
      ∀ (tracker_name : String) (detection : HailoObject),
        ∃ st', filter_detection api tracker_name st detection = Except.ok st' :=
  ⟨⟨_, filter_eq api st roi⟩, fun T d => ⟨_, filter_detection_eq api T st d⟩⟩

/-- C10: last detection wins.  The store has a first tracker name `T`, and `last`
is the last detection of the frame, in graph order, that resolves to track `t`
and has a classification-typed sub-object.  Then `filter` returns, the
Classifications labelled `"face_recon"` stored for `(T, t)` are exactly those
of `last`, and for every such detection its Classifications with another label
are all stored, in order. -/
theorem filter_last_detection_wins (s : HailoTracker) (T : String) (rest : List String)
    (t : Int) (roi : HailoROI) (last : HailoObject)
    (hT : s.trackers = T :: rest)
    (hlast : (List.filter (reconciles t)
        (get_objects_typed roi.objects hailo_object_t.HAILO_DETECTION)).getLast? = some last) :
    ∃ s', filter association_store s roi = Except.ok s' ∧
      List.filter is_face_recon (s'.tracks T t) =
        List.filter is_face_recon (classifications_of last) ∧
      ∀ d ∈ get_objects_typed roi.objects hailo_object_t.HAILO_DETECTION,
        reconciles t d = true →
          List.Sublist
            (List.filter (fun o => !is_face_recon o) (accepted (classifications_of d)))
            (s'.tracks T t) := by
  have hmem : T ∈ s.trackers := by rw [hT]; exact List.mem_cons_self _ _
  refine ⟨_, filter_store_eq s roi, ?_, ?_⟩
  · simp only [hT]
    rw [foldl_reconcile_tracks T _ s hmem T t, if_pos rfl,
      face_recon_foldl_last t _ _ last hlast, face_recon_accepted]
  · intro d hd hr
    simp only [hT]
    rw [foldl_reconcile_tracks T _ s hmem T t, if_pos rfl]
    exact other_label_sublist_foldl t _ _ d hd hr

/-- C10 at a frame with two detections of track 42. -/
theorem filter_last_detection_wins_witness :
    ∃ s', filter association_store store_fresh frame_two_detections = Except.ok s' ∧
      List.filter is_face_recon (s'.tracks "T1" 42) =
        List.filter is_face_recon (classifications_of detection_bob) ∧
      ∀ d ∈ get_objects_typed frame_two_detections.objects hailo_object_t.HAILO_DETECTION,
        reconciles 42 d = true →
          List.Sublist
            (List.filter (fun o => !is_face_recon o) (accepted (classifications_of d)))
            (s'.tracks "T1" 42) :=
  filter_last_detection_wins store_fresh "T1" [] 42 frame_two_detections detection_bob rfl rfl

end TrackerUpdate
